import Mathlib

/-
Verification of the repo-health-scorecard backend's metric-normalization and
aggregation engine (src/utils/scoreAggregator: `normalise`, `weights`,
`aggregateScore`; src/utils/metricsCalculator: `medianResolutionTime`,
`medianPRDuration`, `estimateBusFactor`, `existsTestFolder`,
`computeWeeklyAverage`, `countVulnerabilities`).

JavaScript numbers are modelled exactly as rationals (ℚ); `Math.round` is
modelled as round-half-up (floor of x + 1/2), which is what JavaScript's
`Math.round` computes for every argument.  `null`/`undefined` metric entries
are modelled as `Option.none`.  The stable JavaScript `Array.prototype.sort`
is modelled by a stable insertion sort processing elements left to right.
-/

namespace RepoHealth

/-- A JavaScript value fed to `normalise`: the raw metrics are numbers
(rationals here) or booleans (`testFolderExists`). -/
inductive JSVal where
  | num : ℚ → JSVal
  | boolean : Bool → JSVal
deriving DecidableEq

/-- JavaScript ToNumber coercion restricted to the values above
(`true` coerces to 1, `false` to 0), as applied by the arithmetic in
`normalise`. -/
def JSVal.toNumber : JSVal → ℚ
  | .num q => q
  | .boolean b => if b then 1 else 0

/-- JavaScript truthiness for the values above (`raw ? 10 : 0`):
a number is truthy iff it is nonzero, a boolean iff it is `true`. -/
def JSVal.truthy : JSVal → Bool
  | .num q => q != 0
  | .boolean b => b

/-- The ten metric keys of the weight map, in the insertion order of the
source object (the order `Object.keys(weights)` iterates in). -/
inductive MetricKey where
  | commitFreq
  | issueResTime
  | prReviewDuration
  | contributorCount
  | busFactor
  | developerChurn
  | testFolderExists
  | badgeCount
  | vulnerabilityCount
  | ossfScore
deriving DecidableEq

/-- The source function `normalise(metricKey, raw)` of the score aggregator: one linear rule
per metric, mapping a raw value to a 0-10 score.  An unknown key (the
`default` branch returning 0) is unrepresentable here because `MetricKey`
enumerates exactly the keys the aggregation loop ever passes. -/
def normalise (metricKey : MetricKey) (raw : JSVal) : ℚ :=
  match metricKey with
  | .commitFreq => min 10 (raw.toNumber / 30 * 10)
  | .issueResTime => max 0 (10 - (raw.toNumber - 24) * (10 / 144))
  | .prReviewDuration => max 0 (10 - (raw.toNumber - 6) * (10 / 66))
  | .contributorCount => min 10 (raw.toNumber / 200 * 10)
  | .busFactor => min 10 (raw.toNumber / 10 * 10)
  | .developerChurn => max 0 (10 - raw.toNumber * (1 / 10))
  | .testFolderExists => if raw.truthy then 10 else 0
  | .badgeCount => min 10 (raw.toNumber / 6 * 10)
  | .vulnerabilityCount => max 0 (10 - raw.toNumber)
  | .ossfScore => raw.toNumber

/-- The fixed weight map (percentages); the source comment says it must sum
to 100. -/
def weights : MetricKey → ℕ
  | .commitFreq => 10
  | .issueResTime => 12
  | .prReviewDuration => 12
  | .contributorCount => 8
  | .busFactor => 10
  | .developerChurn => 10
  | .testFolderExists => 10
  | .badgeCount => 5
  | .vulnerabilityCount => 13
  | .ossfScore => 10

/-- The key list `Object.keys(weights)` iterates over, in source insertion
order. -/
def weightKeys : List MetricKey :=
  [.commitFreq, .issueResTime, .prReviewDuration, .contributorCount,
   .busFactor, .developerChurn, .testFolderExists, .badgeCount,
   .vulnerabilityCount, .ossfScore]

/-- The metrics object handed to `aggregateScore`: one entry per metric key,
`none` modelling `null`/`undefined` (an absent metric). -/
structure RawMetricSet where
  commitFreq : Option ℚ := none
  issueResTime : Option ℚ := none
  prReviewDuration : Option ℚ := none
  contributorCount : Option ℚ := none
  busFactor : Option ℚ := none
  developerChurn : Option ℚ := none
  testFolderExists : Option Bool := none
  badgeCount : Option ℚ := none
  vulnerabilityCount : Option ℚ := none
  ossfScore : Option ℚ := none
deriving DecidableEq

/-- The property lookup `metrics[key]` performed by the aggregation loop. -/
def RawMetricSet.get (m : RawMetricSet) : MetricKey → Option JSVal
  | .commitFreq => m.commitFreq.map .num
  | .issueResTime => m.issueResTime.map .num
  | .prReviewDuration => m.prReviewDuration.map .num
  | .contributorCount => m.contributorCount.map .num
  | .busFactor => m.busFactor.map .num
  | .developerChurn => m.developerChurn.map .num
  | .testFolderExists => m.testFolderExists.map .boolean
  | .badgeCount => m.badgeCount.map .num
  | .vulnerabilityCount => m.vulnerabilityCount.map .num
  | .ossfScore => m.ossfScore.map .num

/-- JavaScript `Math.round`: round half towards positive infinity,
i.e. the floor of x + 1/2. -/
def jsRound (q : ℚ) : ℤ := ⌊q + 1 / 2⌋

/-- The running total built by the `Object.keys(weights).forEach` loop of
`aggregateScore`: skip `null`/`undefined` entries, otherwise add
`normalise(key, raw) * weights[key] / 10`. -/
def aggregateTotal (metrics : RawMetricSet) : ℚ :=
  weightKeys.foldl
    (fun total key =>
      match metrics.get key with
      | none => total
      | some raw => total + normalise key raw * (weights key : ℚ) / 10)
    0

/-- The source function `aggregateScore(metrics)`: the rounded weighted composite. -/
def aggregateScore (metrics : RawMetricSet) : ℤ :=
  jsRound (aggregateTotal metrics)

/-- The documented input domains of the present raw metrics: nonnegative
hours, counts and percentages, and an externally supplied ossfScore
in 0-10. -/
def ValidDomains (m : RawMetricSet) : Prop :=
  (∀ q ∈ m.commitFreq, 0 ≤ q) ∧ (∀ q ∈ m.issueResTime, 0 ≤ q) ∧
  (∀ q ∈ m.prReviewDuration, 0 ≤ q) ∧ (∀ q ∈ m.contributorCount, 0 ≤ q) ∧
  (∀ q ∈ m.busFactor, 0 ≤ q) ∧ (∀ q ∈ m.developerChurn, 0 ≤ q) ∧
  (∀ q ∈ m.badgeCount, 0 ≤ q) ∧ (∀ q ∈ m.vulnerabilityCount, 0 ≤ q) ∧
  (∀ q ∈ m.ossfScore, 0 ≤ q ∧ q ≤ 10)

/-- A contributor record, fields login and contributions. -/
structure Contributor where
  login : String
  contributions : ℚ
deriving DecidableEq

/-- Insert a later-arriving contributor into an already sorted (descending)
list: it goes before the first element with strictly fewer contributions,
hence after every earlier element with equal contributions — exactly the
placement JavaScript's stable `sort((a, b) => b.contributions -
a.contributions)` gives it. -/
def insertDesc (c : Contributor) : List Contributor → List Contributor
  | [] => [c]
  | d :: ds =>
    if d.contributions < c.contributions then c :: d :: ds
    else d :: insertDesc c ds

/-- Left-to-right stable insertion of every element. -/
def insertAllDesc (acc : List Contributor) :
    List Contributor → List Contributor
  | [] => acc
  | c :: cs => insertAllDesc (insertDesc c acc) cs

/-- The result of JavaScript's stable
`[...contributors].sort((a, b) => b.contributions - a.contributions)`. -/
def sortDesc (contributors : List Contributor) : List Contributor :=
  insertAllDesc [] contributors

/-- The accumulation loop of `estimateBusFactor`: walk the sorted list,
adding each contribution to the running sum `acc`; return the count of
elements consumed when the sum first reaches `total / 2`, and the full
length if it never does (the fall-through `return sorted.length`). -/
def busLoop (total acc : ℚ) : List Contributor → ℕ
  | [] => 0
  | c :: rest =>
    if total / 2 ≤ acc + c.contributions then 1
    else 1 + busLoop total (acc + c.contributions) rest

/-- The source function `estimateBusFactor(contributors)`: sort descending by contributions,
total them, and count how many top contributors are needed to reach half
the total. -/
def estimateBusFactor (contributors : List Contributor) : ℕ :=
  let sorted := sortDesc contributors
  let total := sorted.foldl (fun sum c => sum + c.contributions) 0
  busLoop total 0 sorted

/-- An issue record; the timestamps are the millisecond epoch values of the
parsed `Date`s, with `closed_at = none` modelling `null`. -/
structure Issue where
  created_at : ℚ
  closed_at : Option ℚ
deriving DecidableEq

/-- A pull-request record, timestamps as in `Issue`. -/
structure PullRequest where
  created_at : ℚ
  merged_at : Option ℚ
  closed_at : Option ℚ
deriving DecidableEq

/-- Insert a later-arriving duration into an already sorted (ascending)
list, before the first strictly larger element: the placement of
JavaScript's stable `sort((a, b) => a - b)`. -/
def insertAsc (q : ℚ) : List ℚ → List ℚ
  | [] => [q]
  | d :: ds => if q < d then q :: d :: ds else d :: insertAsc q ds

/-- Left-to-right stable insertion of every element. -/
def insertAllAsc (acc : List ℚ) : List ℚ → List ℚ
  | [] => acc
  | q :: qs => insertAllAsc (insertAsc q acc) qs

/-- The result of JavaScript's `durations.sort((a, b) => a - b)`. -/
def sortAsc (l : List ℚ) : List ℚ := insertAllAsc [] l

/-- The source function `medianResolutionTime(issues)`: keep the issues with a (truthy)
`closed_at`, map to hours between creation and close, sort ascending; 0 if
none, else the middle value (average of the two middle values on even
count).  The indexing is always in range, so `getD _ 0` returns the same
element `durations[mid]` does in JavaScript; the `getD` inside the map is
never the default because the filter kept only `some` close times. -/
def medianResolutionTime (issues : List Issue) : ℚ :=
  let durations := sortAsc
    ((issues.filter fun i => i.closed_at.isSome).map fun i =>
      (i.closed_at.getD i.created_at - i.created_at) / (1000 * 60 * 60))
  if durations.length = 0 then 0
  else
    if durations.length % 2 = 0 then
      (durations.getD (durations.length / 2 - 1) 0 +
        durations.getD (durations.length / 2) 0) / 2
    else durations.getD (durations.length / 2) 0

/-- The source function `medianPRDuration(prs)`: end time is `merged_at || closed_at`; PRs with
neither are dropped (`filter((d) => d !== null)` fused with the map into
`filterMap`); then the same sort-and-take-the-middle computation as
`medianResolutionTime`. -/
def medianPRDuration (prs : List PullRequest) : ℚ :=
  let durations := sortAsc
    (prs.filterMap fun pr =>
      (pr.merged_at.or pr.closed_at).map fun e =>
        (e - pr.created_at) / (1000 * 60 * 60))
  if durations.length = 0 then 0
  else
    if durations.length % 2 = 0 then
      (durations.getD (durations.length / 2 - 1) 0 +
        durations.getD (durations.length / 2) 0) / 2
    else durations.getD (durations.length / 2) 0

/-- A root directory entry, fields name and type. -/
structure TreeEntry where
  name : String
  type : String
deriving DecidableEq

/-- The source function `existsTestFolder(rootContent)`: some entry is a directory whose whole
name matches the case-insensitive pattern tests? — that is, lower-cases to
"test" or "tests". -/
def existsTestFolder (rootContent : List TreeEntry) : Bool :=
  rootContent.any fun entry =>
    entry.type == "dir" &&
      (entry.name.toLower == "test" || entry.name.toLower == "tests")

/-- A weekly commit-activity record; `total = none` models a missing
`total` field (the `weekObj.total || 0` fallback turns it, like an explicit
0, into 0). -/
structure WeekStat where
  week : ℚ := 0
  total : Option ℚ := none
deriving DecidableEq

/-- The source function `computeWeeklyAverage(commitData)` on an array: empty → 0, else the
arithmetic mean of the `total` fields, a missing `total` counting as 0. -/
def computeWeeklyAverage (commitData : List WeekStat) : ℚ :=
  if commitData.length = 0 then 0
  else
    (commitData.foldl (fun sum w => sum + w.total.getD 0) 0) /
      commitData.length

/-- A vulnerability-alert record, field state. -/
structure Alert where
  state : String
deriving DecidableEq

/-- The source function `countVulnerabilities(alerts)` on an array: the number of alerts whose
state is exactly "open". -/
def countVulnerabilities (alerts : List Alert) : ℕ :=
  (alerts.filter fun a => a.state == "open").length

/-- A JavaScript runtime exception, as thrown when an array method is
invoked on a value that is not an array. -/
inductive JSError where
  | typeError
deriving DecidableEq

/-- The function `medianResolutionTime` at the JavaScript call boundary: `none` models a
non-array argument.  The body starts with `issues.filter(...)` and has no
`Array.isArray` guard, so a non-array argument throws a TypeError. -/
def medianResolutionTimeJS : Option (List Issue) → Except JSError ℚ
  | none => .error .typeError
  | some issues => .ok (medianResolutionTime issues)

/-- The function `medianPRDuration` at the call boundary: the body starts with
`prs.map(...)` and has no guard, so a non-array argument throws. -/
def medianPRDurationJS : Option (List PullRequest) → Except JSError ℚ
  | none => .error .typeError
  | some prs => .ok (medianPRDuration prs)

/-- The function `estimateBusFactor` at the call boundary: the body starts by spreading
`[...contributors]` and has no guard, so a non-array (non-iterable)
argument throws. -/
def estimateBusFactorJS : Option (List Contributor) → Except JSError ℕ
  | none => .error .typeError
  | some contributors => .ok (estimateBusFactor contributors)

/-- The function `existsTestFolder` at the call boundary: the body starts with
`rootContent.some(...)` and has no guard, so a non-array argument
throws. -/
def existsTestFolderJS : Option (List TreeEntry) → Except JSError Bool
  | none => .error .typeError
  | some rootContent => .ok (existsTestFolder rootContent)

/-- The function `computeWeeklyAverage` at the call boundary: the body begins with
`if (!Array.isArray(commitData) || commitData.length === 0) return 0;`,
so a non-array argument returns the default 0 instead of throwing. -/
def computeWeeklyAverageJS : Option (List WeekStat) → Except JSError ℚ
  | none => .ok 0
  | some commitData => .ok (computeWeeklyAverage commitData)

/-- The function `countVulnerabilities` at the call boundary: the body begins with
`if (!Array.isArray(alerts)) return 0;`, so a non-array argument returns
the default 0 instead of throwing. -/
def countVulnerabilitiesJS : Option (List Alert) → Except JSError ℕ
  | none => .ok 0
  | some alerts => .ok (countVulnerabilities alerts)

/-- Modelled from the spec: the body of `computeDeveloperChurn` is not in
the available sources — the GitHub service only imports it from
`../utils/metricsCalculator` and calls it on the two login sets it builds.
Per the spec it returns "the percentage of the older-window set NOT present
in the recent-window set", and the unavailable marker (`none`, the service's
`null`) when the older-window set is empty. -/
def computeDeveloperChurn (oldSet recentSet : Finset String) : Option ℚ :=
  if oldSet = ∅ then none
  else
    some (((oldSet.filter fun l => l ∉ recentSet).card : ℚ) * 100 /
      oldSet.card)

/-- The spec's words for the median rule, to compare the code against:
ascending sort; no values → 0; even count → average of the two middle
values; odd count → the middle value. -/
def medianSpec (l : List ℚ) : ℚ :=
  let s := sortAsc l
  if s.length = 0 then 0
  else
    if s.length % 2 = 0 then
      (s.getD (s.length / 2 - 1) 0 + s.getD (s.length / 2) 0) / 2
    else s.getD (s.length / 2) 0

/-- The sum of the contributions of a list of contributors. -/
def sumContribs (l : List Contributor) : ℚ :=
  (l.map fun c => c.contributions).sum

/-- The contribution of one key to the aggregation total: 0 when the metric
is absent, `normalise(key, raw) * weights[key] / 10` when present. -/
def keyTerm (m : RawMetricSet) (k : MetricKey) : ℚ :=
  match m.get k with
  | none => 0
  | some raw => normalise k raw * (weights k : ℚ) / 10

/-- The per-key contributions of exactly the present metrics, in key
order: the summands the spec's aggregation sentence describes. -/
def presentContributions (m : RawMetricSet) : List ℚ :=
  weightKeys.filterMap fun key =>
    (m.get key).map fun raw => normalise key raw * (weights key : ℚ) / 10

/-- A full metric set with every entry present and inside its documented
input domain, each at its best value except that the median issue
resolution time is 0 hours (issues closed immediately — a valid
nonnegative duration). -/
def bestCaseMetrics : RawMetricSet :=
  { commitFreq := some 30, issueResTime := some 0,
    prReviewDuration := some 6, contributorCount := some 200,
    busFactor := some 10, developerChurn := some 0,
    testFolderExists := some true, badgeCount := some 6,
    vulnerabilityCount := some 0, ossfScore := some 10 }

theorem sumContribs_nil : sumContribs [] = 0 := rfl

theorem sumContribs_cons (c : Contributor) (l : List Contributor) :
    sumContribs (c :: l) = c.contributions + sumContribs l := by
  simp [sumContribs]

theorem insertDesc_perm (c : Contributor) (l : List Contributor) :
    (insertDesc c l).Perm (c :: l) := by
  induction l with
  | nil => simp [insertDesc]
  | cons d ds ih =>
    rw [insertDesc]
    split
    · exact List.Perm.refl _
    · exact (ih.cons d).trans (List.Perm.swap c d ds)

theorem insertAllDesc_perm (l : List Contributor) :
    ∀ acc : List Contributor, (insertAllDesc acc l).Perm (acc ++ l) := by
  induction l with
  | nil => intro acc; simp [insertAllDesc]
  | cons c cs ih =>
    intro acc
    rw [insertAllDesc]
    refine (ih (insertDesc c acc)).trans ?_
    exact ((insertDesc_perm c acc).append_right cs).trans
      List.perm_middle.symm

theorem sortDesc_perm (l : List Contributor) : (sortDesc l).Perm l := by
  simpa [sortDesc] using insertAllDesc_perm l []

theorem insertDesc_pairwise (c : Contributor) (l : List Contributor)
    (h : l.Pairwise fun a b => b.contributions ≤ a.contributions) :
    (insertDesc c l).Pairwise fun a b => b.contributions ≤ a.contributions := by
  induction l with
  | nil => simp [insertDesc]
  | cons d ds ih =>
    rw [List.pairwise_cons] at h
    obtain ⟨hd, hds⟩ := h
    rw [insertDesc]
    split
    · rename_i hlt
      refine List.Pairwise.cons ?_ (List.Pairwise.cons hd hds)
      intro x hx
      rcases List.mem_cons.mp hx with rfl | hx
      · exact hlt.le
      · exact (hd x hx).trans hlt.le
    · rename_i hge
      push_neg at hge
      refine List.Pairwise.cons ?_ (ih hds)
      intro x hx
      rcases List.mem_cons.mp ((insertDesc_perm c ds).mem_iff.mp hx) with
        rfl | hx
      · exact hge
      · exact hd x hx

theorem insertAllDesc_pairwise (l : List Contributor) :
    ∀ acc : List Contributor,
      (acc.Pairwise fun a b => b.contributions ≤ a.contributions) →
      (insertAllDesc acc l).Pairwise
        fun a b => b.contributions ≤ a.contributions := by
  induction l with
  | nil => intro acc h; simpa [insertAllDesc] using h
  | cons c cs ih =>
    intro acc h
    rw [insertAllDesc]
    exact ih _ (insertDesc_pairwise c acc h)

theorem sortDesc_pairwise (l : List Contributor) :
    (sortDesc l).Pairwise fun a b => b.contributions ≤ a.contributions :=
  insertAllDesc_pairwise l [] (by simp)

theorem insertAsc_perm (q : ℚ) (l : List ℚ) :
    (insertAsc q l).Perm (q :: l) := by
  induction l with
  | nil => simp [insertAsc]
  | cons d ds ih =>
    rw [insertAsc]
    split
    · exact List.Perm.refl _
    · exact (ih.cons d).trans (List.Perm.swap q d ds)

theorem insertAllAsc_perm (l : List ℚ) :
    ∀ acc : List ℚ, (insertAllAsc acc l).Perm (acc ++ l) := by
  induction l with
  | nil => intro acc; simp [insertAllAsc]
  | cons q qs ih =>
    intro acc
    rw [insertAllAsc]
    refine (ih (insertAsc q acc)).trans ?_
    exact ((insertAsc_perm q acc).append_right qs).trans List.perm_middle.symm

theorem sortAsc_perm (l : List ℚ) : (sortAsc l).Perm l := by
  simpa [sortAsc] using insertAllAsc_perm l []

theorem insertAsc_pairwise (q : ℚ) (l : List ℚ)
    (h : l.Pairwise (· ≤ ·)) : (insertAsc q l).Pairwise (· ≤ ·) := by
  induction l with
  | nil => simp [insertAsc]
  | cons d ds ih =>
    rw [List.pairwise_cons] at h
    obtain ⟨hd, hds⟩ := h
    rw [insertAsc]
    split
    · rename_i hlt
      refine List.Pairwise.cons ?_ (List.Pairwise.cons hd hds)
      intro x hx
      rcases List.mem_cons.mp hx with rfl | hx
      · exact hlt.le
      · exact hlt.le.trans (hd x hx)
    · rename_i hge
      push_neg at hge
      refine List.Pairwise.cons ?_ (ih hds)
      intro x hx
      rcases List.mem_cons.mp ((insertAsc_perm q ds).mem_iff.mp hx) with
        rfl | hx
      · exact hge
      · exact hd x hx

theorem insertAllAsc_pairwise (l : List ℚ) :
    ∀ acc : List ℚ, acc.Pairwise (· ≤ ·) →
      (insertAllAsc acc l).Pairwise (· ≤ ·) := by
  induction l with
  | nil => intro acc h; simpa [insertAllAsc] using h
  | cons q qs ih =>
    intro acc h
    rw [insertAllAsc]
    exact ih _ (insertAsc_pairwise q acc h)

theorem sortAsc_pairwise (l : List ℚ) : (sortAsc l).Pairwise (· ≤ ·) :=
  insertAllAsc_pairwise l [] (by simp)

theorem busLoop_le_length (t : ℚ) (l : List Contributor) :
    ∀ a : ℚ, busLoop t a l ≤ l.length := by
  induction l with
  | nil => intro a; simp [busLoop]
  | cons c rest ih =>
    intro a
    rw [busLoop]
    split
    · simp
    · have := ih (a + c.contributions)
      simp only [List.length_cons]
      omega

theorem busLoop_pos (t a : ℚ) (c : Contributor) (rest : List Contributor) :
    1 ≤ busLoop t a (c :: rest) := by
  rw [busLoop]
  split
  · exact le_refl 1
  · omega

theorem busLoop_reach (t : ℚ) (l : List Contributor) :
    ∀ a : ℚ, t / 2 ≤ a + sumContribs l →
      t / 2 ≤ a + sumContribs (l.take (busLoop t a l)) := by
  induction l with
  | nil => intro a h; simpa [busLoop] using h
  | cons c rest ih =>
    intro a h
    rw [busLoop]
    split
    · rename_i hc
      simpa [sumContribs_cons, sumContribs_nil] using hc
    · rename_i hc
      have h' : t / 2 ≤ (a + c.contributions) + sumContribs rest := by
        rw [sumContribs_cons] at h; linarith
      have := ih (a + c.contributions) h'
      simpa [List.take_cons, sumContribs_cons, add_assoc] using this

theorem busLoop_min (t : ℚ) (l : List Contributor) :
    ∀ (a : ℚ) (j : ℕ), 1 ≤ j → j < busLoop t a l →
      a + sumContribs (l.take j) < t / 2 := by
  induction l with
  | nil => intro a j _ hj; simp [busLoop] at hj
  | cons c rest ih =>
    intro a j hj hlt
    rw [busLoop] at hlt
    split at hlt
    · omega
    · rename_i hc
      push_neg at hc
      cases j with
      | zero => omega
      | succ jj =>
        rw [List.take_succ_cons, sumContribs_cons, ← add_assoc]
        cases Nat.eq_zero_or_pos jj with
        | inl h0 =>
          subst h0
          simpa [sumContribs_nil] using hc
        | inr hpos =>
          exact ih (a + c.contributions) jj hpos (by omega)

theorem foldl_add_contribs (l : List Contributor) :
    ∀ x : ℚ, l.foldl (fun sum c => sum + c.contributions) x
      = x + sumContribs l := by
  induction l with
  | nil => intro x; simp [sumContribs_nil]
  | cons c rest ih =>
    intro x
    rw [List.foldl_cons, ih, sumContribs_cons]
    ring

theorem foldl_keyTerm (m : RawMetricSet) (ks : List MetricKey) :
    ∀ x : ℚ,
      ks.foldl
        (fun total key =>
          match m.get key with
          | none => total
          | some raw => total + normalise key raw * (weights key : ℚ) / 10)
        x
      = x + (ks.map (keyTerm m)).sum := by
  induction ks with
  | nil => intro x; simp
  | cons k ks ih =>
    intro x
    rw [List.foldl_cons, List.map_cons, List.sum_cons]
    cases h : m.get k with
    | none => simp only [h]; rw [ih, keyTerm, h]; ring
    | some raw => simp only [h]; rw [ih, keyTerm, h]; ring

theorem aggregateTotal_eq_sum (m : RawMetricSet) :
    aggregateTotal m = (weightKeys.map (keyTerm m)).sum := by
  simpa [aggregateTotal] using foldl_keyTerm m weightKeys 0

theorem presentContributions_sum (m : RawMetricSet) :
    (presentContributions m).sum = (weightKeys.map (keyTerm m)).sum := by
  rw [presentContributions]
  induction weightKeys with
  | nil => simp
  | cons k ks ih =>
    rw [List.filterMap_cons, List.map_cons, List.sum_cons]
    cases h : m.get k with
    | none =>
      simp only [h, Option.map_none', keyTerm]
      rw [ih]
      ring
    | some raw =>
      simp only [h, Option.map_some', keyTerm]
      rw [List.sum_cons, ih]

theorem jsRound_le_jsRound {a b : ℚ} (h : a ≤ b) : jsRound a ≤ jsRound b :=
  Int.floor_le_floor (by linarith)

/-- C1: the claim that `aggregateScore` returns an integer in 0-100 for
every valid-domain input fails on the code.  With every metric present and
inside its documented domain, the missing upper clamp of the issueResTime
rule makes `normalise(issueResTime, 0)` equal 35/3, its weighted term
contribute 14 instead of at most 12, and the composite come out 102. -/
theorem aggregateScore_exceeds_hundred :
    ValidDomains bestCaseMetrics ∧ aggregateScore bestCaseMetrics = 102 ∧
    100 < aggregateScore bestCaseMetrics := by
  refine ⟨?_, ?_, ?_⟩
  · refine ⟨?_, ?_, ?_, ?_, ?_, ?_, ?_, ?_, ?_⟩ <;>
      simp [bestCaseMetrics]
  · norm_num [bestCaseMetrics, aggregateScore, aggregateTotal, weightKeys,
      RawMetricSet.get, normalise, weights, jsRound, JSVal.truthy,
      JSVal.toNumber]
  · norm_num [bestCaseMetrics, aggregateScore, aggregateTotal, weightKeys,
      RawMetricSet.get, normalise, weights, jsRound, JSVal.truthy,
      JSVal.toNumber]

/-- C2: the claim that `normalise` stays in 0-10 on every valid-domain
input fails on the code.  The issueResTime and prReviewDuration rules have
no upper clamp (`max(0, ...)` only), so a resolution time of 0 hours — a
valid nonnegative duration — normalises to 35/3 > 10, and a review
duration of 0 hours to 120/11 > 10. -/
theorem normalise_exceeds_ten :
    normalise .issueResTime (.num 0) = 35 / 3 ∧ (10 : ℚ) < 35 / 3 ∧
    normalise .prReviewDuration (.num 0) = 120 / 11 ∧
    (10 : ℚ) < 120 / 11 := by
  refine ⟨?_, by norm_num, ?_, by norm_num⟩ <;>
    norm_num [normalise, JSVal.toNumber]

/-- C3: `aggregateScore` is the rounding of the sum of
`normalise(key, raw) * weight / 10` over exactly the present metrics — the
weight of every absent metric is dropped, nothing is redistributed, and no
error is raised (the function is total); and on the input where only
testFolderExists = true and vulnerabilityCount = 0 are present it returns
(10*10/10) + (10*13/10) = 23. -/
theorem aggregateScore_presentOnly :
    (∀ m : RawMetricSet,
      aggregateScore m = jsRound (presentContributions m).sum) ∧
    aggregateScore { testFolderExists := some true,
                     vulnerabilityCount := some 0 } = 23 := by
  constructor
  · intro m
    rw [aggregateScore, aggregateTotal_eq_sum, ← presentContributions_sum]
  · norm_num [aggregateScore, aggregateTotal, weightKeys, RawMetricSet.get,
      normalise, weights, jsRound, JSVal.truthy, JSVal.toNumber]

/-- C5: the fixed weight table covers all ten metric keys, each weight is a
nonnegative integer percentage, and the ten weights sum to exactly 100. -/
theorem weights_sum_hundred :
    (∀ k : MetricKey, k ∈ weightKeys) ∧
    (weightKeys.map fun k => (weights k : ℤ)).sum = 100 ∧
    (∀ k : MetricKey, 0 ≤ (weights k : ℤ)) := by
  refine ⟨?_, ?_, ?_⟩
  · intro k; cases k <;> simp [weightKeys]
  · norm_num [weightKeys, weights]
  · intro k; exact Int.natCast_nonneg _

/-- C4 counterexample: `medianResolutionTime` immediately invokes
`issues.filter` without an `Array.isArray` guard, so on a non-array
argument it throws a TypeError instead of returning the documented
default 0. -/
theorem medianResolutionTime_not_total :
    medianResolutionTimeJS none = Except.error JSError.typeError ∧
    medianResolutionTimeJS none ≠ Except.ok 0 :=
  ⟨rfl, by simp [medianResolutionTimeJS]⟩

/-- C4 amended: only the calculators with explicit guards
(`computeWeeklyAverage`, `countVulnerabilities`, and `countBadges`, not
modelled here) return their documented defaults on malformed input;
`medianResolutionTime`, `medianPRDuration`, `estimateBusFactor` and
`existsTestFolder` call an array method or spread their argument directly
and throw a TypeError on a non-array (non-iterable) argument. -/
theorem calculators_malformed_input :
    medianResolutionTimeJS none = Except.error JSError.typeError ∧
    medianPRDurationJS none = Except.error JSError.typeError ∧
    estimateBusFactorJS none = Except.error JSError.typeError ∧
    existsTestFolderJS none = Except.error JSError.typeError ∧
    computeWeeklyAverageJS none = Except.ok 0 ∧
    countVulnerabilitiesJS none = Except.ok 0 :=
  ⟨rfl, rfl, rfl, rfl, rfl, rfl⟩

/-- C9 (modelled from the spec, the function body being outside the
available sources): `computeDeveloperChurn` returns the percentage of the
older-window contributor set not present in the recent-window set, and the
unavailable marker — not zero — when the older-window set is empty. -/
theorem computeDeveloperChurn_spec (oldSet recentSet : Finset String) :
    (oldSet = ∅ → computeDeveloperChurn oldSet recentSet = none) ∧
    (oldSet ≠ ∅ → computeDeveloperChurn oldSet recentSet =
      some (((oldSet \ recentSet).card : ℚ) * 100 / (oldSet.card : ℚ))) := by
  constructor
  · intro h; simp [computeDeveloperChurn, h]
  · intro h
    rw [computeDeveloperChurn, if_neg h, Finset.sdiff_eq_filter]

theorem computeDeveloperChurn_spec_witness :
    ({"a", "b"} : Finset String) ≠ ∅ ∧
    computeDeveloperChurn {"a", "b"} {"a"} =
      some (((({"a", "b"} : Finset String) \ {"a"}).card : ℚ) * 100 /
        ((({"a", "b"} : Finset String).card : ℚ))) :=
  ⟨by decide, (computeDeveloperChurn_spec {"a", "b"} {"a"}).2 (by decide)⟩

/-- C10: on a non-empty contributor list whose contributions are all 0 the
total is 0, the running sum 0 already satisfies `acc >= total / 2` at the
first contributor, and `estimateBusFactor` returns 1 — not 0 and not an
error. -/
theorem estimateBusFactor_allZero (cs : List Contributor)
    (hne : cs ≠ []) (hz : ∀ c ∈ cs, c.contributions = 0) :
    estimateBusFactor cs = 1 := by
  have hperm := sortDesc_perm cs
  have hz' : ∀ c ∈ sortDesc cs, c.contributions = 0 := fun c hc =>
    hz c (hperm.mem_iff.mp hc)
  have hne' : sortDesc cs ≠ [] := by
    intro h
    apply hne
    have hl := hperm.length_eq
    rw [h] at hl
    exact List.length_eq_zero.mp hl.symm
  obtain ⟨c, rest, h⟩ := List.exists_cons_of_ne_nil hne'
  have hdef : estimateBusFactor cs =
      busLoop ((sortDesc cs).foldl (fun sum c => sum + c.contributions) 0) 0
        (sortDesc cs) := rfl
  have hc0 : c.contributions = 0 := hz' c (h ▸ List.mem_cons_self c rest)
  have htot : sumContribs (c :: rest) = 0 := by
    rw [sumContribs]
    apply List.sum_eq_zero
    intro x hx
    obtain ⟨y, hy, rfl⟩ := List.mem_map.mp hx
    exact hz' y (h ▸ hy)
  rw [hdef, h, foldl_add_contribs, zero_add, htot, busLoop,
    if_pos (by rw [hc0]; norm_num)]

theorem estimateBusFactor_allZero_witness :
    estimateBusFactor [⟨"a", 0⟩, ⟨"b", 0⟩] = 1 :=
  estimateBusFactor_allZero [⟨"a", 0⟩, ⟨"b", 0⟩] (by decide) (by decide)

/-- C6: on a list of contributor records with nonnegative contribution
counts, `estimateBusFactor` returns 0 on empty input, and otherwise the
smallest count k ≥ 1 of leading entries of the stable descending sort
(a descending-sorted permutation of the input, ties kept in input order)
whose contributions sum to at least half the total: the result reaches
half the total and every shorter positive prefix falls short of it. -/
theorem estimateBusFactor_correct (cs : List Contributor)
    (hnn : ∀ c ∈ cs, 0 ≤ c.contributions) (hne : cs ≠ []) :
    estimateBusFactor [] = 0 ∧
    (sortDesc cs).Perm cs ∧
    ((sortDesc cs).Pairwise fun a b => b.contributions ≤ a.contributions) ∧
    1 ≤ estimateBusFactor cs ∧ estimateBusFactor cs ≤ cs.length ∧
    sumContribs cs / 2 ≤
      sumContribs ((sortDesc cs).take (estimateBusFactor cs)) ∧
    ∀ j : ℕ, 1 ≤ j → j < estimateBusFactor cs →
      sumContribs ((sortDesc cs).take j) < sumContribs cs / 2 := by
  have hperm := sortDesc_perm cs
  have htot : sumContribs (sortDesc cs) = sumContribs cs := by
    rw [sumContribs, sumContribs]
    exact (hperm.map _).sum_eq
  have hdef : estimateBusFactor cs =
      busLoop (sumContribs (sortDesc cs)) 0 (sortDesc cs) := by
    have h0 : estimateBusFactor cs =
        busLoop ((sortDesc cs).foldl (fun sum c => sum + c.contributions) 0)
          0 (sortDesc cs) := rfl
    rw [h0, foldl_add_contribs, zero_add]
  have hne' : sortDesc cs ≠ [] := by
    intro h
    apply hne
    have hl := hperm.length_eq
    rw [h] at hl
    exact List.length_eq_zero.mp hl.symm
  have hnn0 : 0 ≤ sumContribs cs := by
    rw [sumContribs]
    apply List.sum_nonneg
    intro x hx
    obtain ⟨c, hc, rfl⟩ := List.mem_map.mp hx
    exact hnn c hc
  refine ⟨rfl, hperm, sortDesc_pairwise cs, ?_, ?_, ?_, ?_⟩
  · obtain ⟨c, rest, h⟩ := List.exists_cons_of_ne_nil hne'
    rw [hdef, h]
    exact busLoop_pos _ _ c rest
  · rw [hdef]
    exact (busLoop_le_length _ _ 0).trans hperm.length_eq.le
  · have h2 : sumContribs (sortDesc cs) / 2 ≤ 0 + sumContribs (sortDesc cs) := by
      rw [zero_add, htot]
      linarith
    have := busLoop_reach (sumContribs (sortDesc cs)) (sortDesc cs) 0 h2
    rw [hdef, ← htot]
    simpa using this
  · intro j hj hlt
    rw [hdef] at hlt
    have := busLoop_min (sumContribs (sortDesc cs)) (sortDesc cs) 0 j hj hlt
    rw [← htot]
    simpa using this

theorem estimateBusFactor_correct_witness :
    1 ≤ estimateBusFactor [⟨"a", 100⟩, ⟨"b", 50⟩, ⟨"c", 50⟩] :=
  (estimateBusFactor_correct [⟨"a", 100⟩, ⟨"b", 50⟩, ⟨"c", 50⟩]
    (by decide) (by decide)).2.2.2.1

theorem closedDurations_eq (issues : List Issue) :
    ((issues.filter fun i => i.closed_at.isSome).map fun i =>
        (i.closed_at.getD i.created_at - i.created_at) / (1000 * 60 * 60)) =
      issues.filterMap fun i =>
        i.closed_at.map fun c => (c - i.created_at) / (1000 * 60 * 60) := by
  induction issues with
  | nil => rfl
  | cons i is ih =>
    cases h : i.closed_at with
    | none => simp [List.filter_cons, List.filterMap_cons, h, ih]
    | some c => simp [List.filter_cons, List.filterMap_cons, h, ih]

/-- C7: `medianResolutionTime` computes the standard median — ascending
sort (`sortAsc` produces a sorted permutation), middle value, average of
the two middle values on even count, 0 on no values — of the hours between
creation and close over exactly the issues whose `closed_at` is non-null;
and on two issues closed after 24 and 72 hours it returns 48. -/
theorem medianResolutionTime_correct :
    (∀ issues : List Issue,
      medianResolutionTime issues =
        medianSpec (issues.filterMap fun i =>
          i.closed_at.map fun c => (c - i.created_at) / (1000 * 60 * 60))) ∧
    (∀ l : List ℚ, (sortAsc l).Perm l ∧ (sortAsc l).Pairwise (· ≤ ·)) ∧
    medianResolutionTime
      [⟨1704067200000, some 1704153600000⟩,
       ⟨1704067200000, some 1704326400000⟩] = 48 := by
  refine ⟨?_, fun l => ⟨sortAsc_perm l, sortAsc_pairwise l⟩, ?_⟩
  · intro issues
    rw [medianResolutionTime, medianSpec, closedDurations_eq]
  · norm_num [medianResolutionTime, sortAsc, insertAllAsc, insertAsc]

/-- C8: with all other present metrics held fixed, increasing
vulnerabilityCount never increases the composite score, and increasing
commitFreq up to its cap of 30 commits/week never decreases it. -/
theorem aggregateScore_monotone (m : RawMetricSet) (q r : ℚ) (hqr : q ≤ r) :
    aggregateScore { m with vulnerabilityCount := some r } ≤
      aggregateScore { m with vulnerabilityCount := some q } ∧
    (r ≤ 30 →
      aggregateScore { m with commitFreq := some q } ≤
        aggregateScore { m with commitFreq := some r }) := by
  constructor
  · have hterm : normalise .vulnerabilityCount (.num r) *
        (weights .vulnerabilityCount : ℚ) / 10 ≤
        normalise .vulnerabilityCount (.num q) *
        (weights .vulnerabilityCount : ℚ) / 10 := by
      have h1 : normalise .vulnerabilityCount (.num r) ≤
          normalise .vulnerabilityCount (.num q) := by
        simp only [normalise, JSVal.toNumber]
        exact max_le_max le_rfl (by linarith)
      gcongr
    rw [aggregateScore, aggregateScore]
    apply jsRound_le_jsRound
    rw [aggregateTotal_eq_sum, aggregateTotal_eq_sum]
    simp only [weightKeys, List.map_cons, List.map_nil, List.sum_cons,
      List.sum_nil, keyTerm, RawMetricSet.get, Option.map_some']
    linarith [hterm]
  · intro hcap
    have hterm : normalise .commitFreq (.num q) *
        (weights .commitFreq : ℚ) / 10 ≤
        normalise .commitFreq (.num r) *
        (weights .commitFreq : ℚ) / 10 := by
      have h1 : normalise .commitFreq (.num q) ≤
          normalise .commitFreq (.num r) := by
        simp only [normalise, JSVal.toNumber]
        exact min_le_min le_rfl (by linarith)
      gcongr
    rw [aggregateScore, aggregateScore]
    apply jsRound_le_jsRound
    rw [aggregateTotal_eq_sum, aggregateTotal_eq_sum]
    simp only [weightKeys, List.map_cons, List.map_nil, List.sum_cons,
      List.sum_nil, keyTerm, RawMetricSet.get, Option.map_some']
    linarith [hterm]

theorem aggregateScore_monotone_witness :
    aggregateScore { vulnerabilityCount := some (1 : ℚ) } ≤
      aggregateScore { vulnerabilityCount := some (0 : ℚ) } ∧
    ((1 : ℚ) ≤ 30 →
      aggregateScore { commitFreq := some (0 : ℚ) } ≤
        aggregateScore { commitFreq := some (1 : ℚ) }) :=
  aggregateScore_monotone {} 0 1 (by norm_num)

end RepoHealth
